import Mathlib

/-!
Shallow embedding of the Tiratana report pipeline: the chunker
(`splitTextIntoChunks` from `src/utils.ts`), the incremental compiler
(`compileReportFromPreliminaryAnalysis` from `src/report-generator.ts`),
the per-unit analyzer (`generateCodeFileAnalysis`), the standardizer
(`standardizeReport`) and the file collector (`getAllFilesInFolder`).

Modelling conventions:
* JavaScript strings are lists of characters (`Str`); `s.slice(i, j)`
  becomes `(s.drop i).take (j - i)`.
* `while` loops are modelled with explicit fuel; a result of `none`
  means the loop was still running when the fuel ran out.  The fuel
  supplied by the wrappers is large enough for every terminating run of
  the source loop, so `none` marks exactly the inputs on which the
  source loop never terminates.
* The external text-generation call (`generateText` from the `ai`
  package) is an oracle parameter; `none` models a thrown error and
  `some t` a successful response `t`.  Responses may depend on
  everything the prompt is built from.
* Thrown JavaScript errors crossing a function boundary are modelled
  with `Except`.
-/

abbrev Str := List Char

/-- Whitespace test backing `String.prototype.trim`. -/
def isWsChar (c : Char) : Bool := c.isWhitespace

/-- `text.trim() === ""` — also true for the empty string. -/
def trimEmpty (s : Str) : Bool := s.all isWsChar

/-- From `src/constants.ts`: `DEFAULT_CHUNK_OVERLAP_CHARS = 128`. -/
def DEFAULT_CHUNK_OVERLAP_CHARS : Nat := 128

/-- From `src/constants.ts`: `DEFAULT_PRELIMINARY_ANALYSIS_CHUNK_SIZE = 2048`. -/
def DEFAULT_PRELIMINARY_ANALYSIS_CHUNK_SIZE : Nat := 2048

/-- `Math.ceil(chunkSizeChars * 0.1)` on natural chunk sizes. -/
def ceilTenth (chunkSizeChars : Nat) : Nat := (chunkSizeChars + 9) / 10

/-- Ceiling division `⌈a / d⌉`, used to state chunk counts. -/
def ceilDivNat (a d : Nat) : Nat := (a + d - 1) / d

/-- The `while (i < text.length)` loop of `splitTextIntoChunks`
(`src/utils.ts`): push `text.slice(i, i + chunkSizeChars)`, then advance
`i` by `d = chunkSizeChars - overlapChars`.  Fuel bounds the number of
iterations; `none` means the loop had not finished when the fuel ran
out (the source loop never terminates when `d = 0` and text remains). -/
def chunkLoop (text : Str) (chunkSizeChars d : Nat) : Nat → Nat → Option (List Str)
  | i, 0 => if i < text.length then none else some []
  | i, fuel + 1 =>
    if i < text.length then
      (chunkLoop text chunkSizeChars d (i + d) fuel).map
        (fun rest => (text.drop i).take chunkSizeChars :: rest)
    else some []

/-- `splitTextIntoChunks` from `src/utils.ts`.  `overlapChars = none`
models an omitted argument (JS default `DEFAULT_CHUNK_OVERLAP_CHARS`).
The branches follow the source: empty / whitespace-only text returns no
chunks; a chunk size strictly larger than the text returns the whole
text; an overlap `≥` the chunk size is clamped to
`Math.ceil(chunkSizeChars * 0.1)`; then the slicing loop runs.  Fuel
`text.length + 1` covers every terminating run of the loop. -/
def splitTextIntoChunks (text : Str) (chunkSizeChars : Nat)
    (overlapChars : Option Nat) : Option (List Str) :=
  let o0 := overlapChars.getD DEFAULT_CHUNK_OVERLAP_CHARS
  if trimEmpty text then some []
  else if chunkSizeChars > text.length then some [text]
  else
    let o := if o0 ≥ chunkSizeChars then ceilTenth chunkSizeChars else o0
    chunkLoop text chunkSizeChars (chunkSizeChars - o) 0 (text.length + 1)

/-- The window the spec describes: the substring of `text` covering
`[k·d, min (k·d + chunkSizeChars) text.length)`. -/
def windowAt (text : Str) (d chunkSizeChars k : Nat) : Str :=
  (text.drop (k * d)).take (min (k * d + chunkSizeChars) text.length - k * d)

/-- All windows of the chunking loop, in increasing `k`, until the
window start reaches or exceeds the text length. -/
def specWindows (text : Str) (chunkSizeChars d : Nat) : List Str :=
  (List.range (ceilDivNat text.length d)).map (windowAt text d chunkSizeChars)

/-- De-overlapped concatenation: keep the first chunk whole and drop the
first `overlap` characters of every later chunk. -/
def deOverlapConcat (overlap : Nat) : List Str → Str
  | [] => []
  | c :: rest => c ++ (rest.map (fun s => s.drop overlap)).flatten

/- ## Incremental compiler (`src/report-generator.ts`) -/

/-- The header template of `compileReportFromPreliminaryAnalysis`. -/
def reportHeader (directory : Str) : Str :=
  ("# Tiratana 💎: Codebase Analysis Report\n    #### Codebase 🛖: ").data
    ++ directory ++ ("\n    ").data

/-- The guard `runningReport && runningReport.trim() === ""`: a JS
string is truthy exactly when it is nonempty. -/
def seedTrigger (runningReport : Str) : Bool :=
  !runningReport.isEmpty && trimEmpty runningReport

/-- External summarization call for the chunk at index `lastIndex`,
given the chunk text and the current running report.  `none` models a
thrown error.  Because a failed chunk is never retried, every chunk
index is submitted at most once per top-level run, so indexing the
call by chunk position is faithful. -/
abbrev Oracle := Nat → Str → Str → Option Str

/-- The message returned when the catch block cannot resume. -/
def COMPILE_FAILURE_MESSAGE : Str :=
  ("Failed to compile report from preliminary analysis due to unexpected system error.").data

/-- The `for (const preliminaryAnalysisChunk of preliminaryAnalysisChunks)`
loop: arguments are the remaining chunks, `lastIndex`, `startingIndex`
and the running report.  A chunk with `lastIndex < startingIndex` is
skipped; otherwise the oracle is consulted and a thrown error aborts the
loop carrying the state `(runningReport, lastIndex)` into the catch. -/
def compileLoop (oracle : Oracle) :
    List Str → Nat → Nat → Str → Except (Str × Nat) Str
  | [], _, _, r => .ok r
  | c :: rest, lastIndex, startingIndex, r =>
    if lastIndex < startingIndex then
      compileLoop oracle rest (lastIndex + 1) startingIndex r
    else
      match oracle lastIndex c r with
      | none => .error (r, lastIndex)
      | some resp => compileLoop oracle rest (lastIndex + 1) startingIndex resp

/-- `compileReportFromPreliminaryAnalysis` from `src/report-generator.ts`.
Arguments after the colon: running report, starting index, fuel.  The
fuel bounds the depth of the resume recursion in the catch block;
`numChunks preliminaryAnalysis + 1` is shown sufficient below. -/
def compileReportFromPreliminaryAnalysis (oracle : Oracle)
    (directory preliminaryAnalysis : Str) : Str → Nat → Nat → Option Str
  | _, _, 0 => none
  | runningReport, startingIndex, fuel + 1 =>
    match splitTextIntoChunks preliminaryAnalysis
        DEFAULT_PRELIMINARY_ANALYSIS_CHUNK_SIZE none with
    | none => none
    | some chunks =>
      match compileLoop oracle chunks 0 startingIndex
          (if seedTrigger runningReport then reportHeader directory
           else runningReport) with
      | .ok r => some r
      | .error (r, lastIndex) =>
        if lastIndex < chunks.length then
          compileReportFromPreliminaryAnalysis oracle directory
            preliminaryAnalysis r (lastIndex + 1) fuel
        else some COMPILE_FAILURE_MESSAGE

/-- The chunk list the compiler works through (chunk size 2048, default
overlap 128, so the slicing loop always terminates). -/
def chunksOf (preliminaryAnalysis : Str) : List Str :=
  (splitTextIntoChunks preliminaryAnalysis
    DEFAULT_PRELIMINARY_ANALYSIS_CHUNK_SIZE none).getD []

/-- Number of chunks of the preliminary document. -/
def numChunks (preliminaryAnalysis : Str) : Nat :=
  (chunksOf preliminaryAnalysis).length

/-- An oracle with deterministic responses `respond` that throws exactly
on the chunk indices in `failsAt`. -/
def mkOracle (respond : Str → Str → Str) (failsAt : Nat → Bool) : Oracle :=
  fun lastIndex chunk runningReport =>
    if failsAt lastIndex then none else some (respond chunk runningReport)

/-- Reference fold: process the chunks in order starting at index `j`,
folding `respond` over the non-failing ones and leaving the report
unchanged on the failing ones. -/
def processAllI (respond : Str → Str → Str) (failsAt : Nat → Bool) :
    Nat → List Str → Str → Str
  | _, [], r => r
  | j, c :: rest, r =>
    processAllI respond failsAt (j + 1) rest
      (if failsAt j then r else respond c r)

/-- The subsequence of chunks whose index (starting at `j`) is not a
failing index. -/
def survivorsFrom (failsAt : Nat → Bool) : Nat → List Str → List Str
  | _, [] => []
  | j, c :: rest =>
    if failsAt j then survivorsFrom failsAt (j + 1) rest
    else c :: survivorsFrom failsAt (j + 1) rest

/- ## Per-unit analyzer, standardizer, file collector -/

/-- The catch-block message of `generateCodeFileAnalysis`. -/
def analysisFailureMessage (filePath : Str) : Str :=
  ("Failed to generate report for file: ").data ++ filePath
    ++ (" due to unexpected system error.").data

/-- `generateCodeFileAnalysis` from `src/report-generator.ts`.  The
oracle abstracts the `generateText` call (its prompt is a function of
the file path and content); `none` models a thrown error, which the
catch block turns into a failure placeholder with the path preserved. -/
def generateCodeFileAnalysis (oracle : Str → Str → Option Str)
    (filePath content : Str) : Str × Str :=
  match oracle filePath content with
  | some report => (filePath, report)
  | none => (filePath, analysisFailureMessage filePath)

/-- The apology placeholder of `standardizeReport`. -/
def STANDARDIZE_APOLOGY : Str :=
  ("# Sorry, couldn").data ++ [Char.ofNat 39]
    ++ ("t standardize your report. 😐").data

/-- `standardizeReport` from `src/report-generator.ts`.  The oracle
abstracts the `generateText` call on the report; the start and end
timestamps of the performance measurement are explicit inputs.  Returns
the standardized report (or, when the call throws, the apology
placeholder) together with the elapsed-time record. -/
def standardizeReport (oracle : Str → Option Str) (startTime endTime : Nat)
    (report : Str) : Str × Nat :=
  match oracle report with
  | some generatedReport => (generatedReport, endTime - startTime)
  | none => (STANDARDIZE_APOLOGY, endTime - startTime)

/-- Directory names skipped by the collector (`IGNORE_DIRECTORIES`). -/
def IGNORE_DIRECTORIES : List Str :=
  [".git", "node_modules", "dist", "build", "venv", "__pycache__",
   "target", "bin", "obj", "out"].map String.data

/-- File suffixes excluded by the collector (`IGNORE_EXTENSIONS`). -/
def IGNORE_EXTENSIONS : List Str :=
  [".report.txt", ".log", ".class", ".pyc", ".o", ".out", ".exe", ".dll",
   ".so", ".a", ".dylib", ".jar", ".war", ".ear", ".min.js", ".map",
   ".lock", ".tsbuildinfo"].map String.data

/-- `file.endsWith(ext)`. -/
def strEndsWith (s suffix : Str) : Bool := suffix.isSuffixOf s

/-- `path.join(folderPath, name)`, modelled as slash concatenation. -/
def joinPath (folderPath name : Str) : Str := folderPath ++ '/' :: name

/-- A snapshot of a filesystem subtree: a file or a directory with its
entries; names are the directory-entry names. -/
inductive FSEntry where
  | file : Str → FSEntry
  | dir : Str → List FSEntry → FSEntry

mutual
/-- The body of the `files.map` callback of `getAllFilesInFolder`: an
ignored directory or an ignored-suffix file contributes nothing, a
subdirectory is recursed into, any other file contributes its path. -/
def collectChild (folderPath : Str) : FSEntry → List Str
  | .file name =>
    if IGNORE_EXTENSIONS.any (fun ext => strEndsWith name ext) then []
    else [joinPath folderPath name]
  | .dir name entries =>
    if IGNORE_DIRECTORIES.contains name then []
    else collectChildren (joinPath folderPath name) entries

/-- Flattened collection over the entries of one directory. -/
def collectChildren (folderPath : Str) : List FSEntry → List Str
  | [] => []
  | e :: rest => collectChild folderPath e ++ collectChildren folderPath rest
end

/-- `getAllFilesInFolder` from `src/report-generator.ts` on a filesystem
snapshot: `root = none` models a path whose `fs.stat` throws (the path
does not exist), `some (.file _)` an existing non-directory.  In both
cases the function throws (the inner not-a-directory error is itself
caught by the surrounding catch and rethrown as the does-not-exist
error, so both carry that message).  On an existing directory it
returns the collected paths. -/
def getAllFilesInFolder (folderPath : Str) (root : Option FSEntry) :
    Except Str (List Str) :=
  match root with
  | none =>
    .error (("Folder path does not exist: ").data ++ folderPath)
  | some (.file _) =>
    .error (("Folder path does not exist: ").data ++ folderPath)
  | some (.dir _ entries) => .ok (collectChildren folderPath entries)

/-- Whether the collector succeeded. -/
def exceptIsOk (e : Except Str (List Str)) : Bool :=
  match e with
  | .ok _ => true
  | .error _ => false

/-- Whether a stat result is an existing directory. -/
def isExistingDirectory (root : Option FSEntry) : Bool :=
  match root with
  | some (.dir _ _) => true
  | _ => false

/- ## Chunker lemmas -/

theorem ceilDivNat_zero (d : Nat) : ceilDivNat 0 d = 0 := by
  unfold ceilDivNat
  rcases d with _ | d
  · rfl
  · exact Nat.div_eq_of_lt (by omega)

theorem ceilDivNat_step {a d : Nat} (hd : 0 < d) (ha : 1 ≤ a) :
    ceilDivNat a d = ceilDivNat (a - d) d + 1 := by
  unfold ceilDivNat
  rcases Nat.le_total a d with h | h
  · have h0 : a - d = 0 := by omega
    rw [h0]
    have h1 : a + d - 1 = (a - 1) + d := by omega
    rw [h1, Nat.add_div_right _ hd, Nat.div_eq_of_lt (by omega),
      Nat.div_eq_of_lt (by omega)]
  · have h1 : a + d - 1 = (a - 1) + d := by omega
    have h2 : a - d + d - 1 = a - 1 := by omega
    rw [h1, h2, Nat.add_div_right _ hd]

theorem lt_text_of_lt_ceilDivNat {L d k : Nat} (hd : 0 < d)
    (hk : k < ceilDivNat L d) : k * d < L := by
  by_contra hle
  have hLe : L ≤ k * d := by omega
  have hcomm : k * d = d * k := Nat.mul_comm k d
  have : ceilDivNat L d ≤ k := by
    unfold ceilDivNat
    rw [Nat.div_le_iff_le_mul_add_pred hd]
    omega
  omega

/-- Unfolding of the window list at a start position `i` still inside
the text. -/
theorem specFrom_cons (text : Str) (C d : Nat) (hd : 0 < d) (i : Nat)
    (hi : i < text.length) :
    (List.range (ceilDivNat (text.length - i) d)).map
        (fun k => (text.drop (i + k * d)).take C)
      = (text.drop i).take C
        :: (List.range (ceilDivNat (text.length - (i + d)) d)).map
            (fun k => (text.drop (i + d + k * d)).take C) := by
  have h1 : ceilDivNat (text.length - i) d
      = ceilDivNat (text.length - i - d) d + 1 :=
    ceilDivNat_step hd (by omega)
  have h2 : text.length - (i + d) = text.length - i - d := by omega
  rw [h1, h2, List.range_succ_eq_map, List.map_cons, List.map_map]
  congr 1
  · simp
  · apply List.map_congr_left
    intro k _
    have h3 : i + (k + 1) * d = i + d + k * d := by ring
    simp [Function.comp, h3]

/-- Core loop correctness: with positive advance `d` and enough fuel the
loop returns exactly the windows starting at `i, i + d, i + 2d, …`. -/
theorem chunkLoop_spec (text : Str) (C d : Nat) (hd : 0 < d) :
    ∀ (fuel i : Nat), text.length - i ≤ fuel * d →
      chunkLoop text C d i fuel
        = some ((List.range (ceilDivNat (text.length - i) d)).map
            (fun k => (text.drop (i + k * d)).take C)) := by
  intro fuel
  induction fuel with
  | zero =>
    intro i h
    have hge : ¬ i < text.length := by omega
    have h0 : text.length - i = 0 := by omega
    simp only [chunkLoop, hge, if_false, h0, ceilDivNat_zero]
    simp
  | succ fuel ih =>
    intro i h
    by_cases hi : i < text.length
    · have hfuel : text.length - (i + d) ≤ fuel * d := by
        have : (fuel + 1) * d = fuel * d + d := by ring
        omega
      simp only [chunkLoop, hi, if_true, ih (i + d) hfuel]
      rw [specFrom_cons text C d hd i hi]
      rfl
    · have h0 : text.length - i = 0 := by omega
      simp only [chunkLoop, hi, if_false, h0, ceilDivNat_zero]
      simp

/-- With zero advance and text remaining, the slicing loop never
finishes, whatever the fuel. -/
theorem chunkLoop_zero_advance (text : Str) (chunkSizeChars : Nat) :
    ∀ (fuel i : Nat), i < text.length →
      chunkLoop text chunkSizeChars 0 i fuel = none := by
  intro fuel
  induction fuel with
  | zero => intro i hi; simp [chunkLoop, hi]
  | succ fuel ih => intro i hi; simp [chunkLoop, hi, ih i hi]

/-- `splitTextIntoChunks` on a text longer than the chunk size, with a
well-formed overlap: the result is the list of slices taken at starts
`0, d, 2d, …` with `d = chunkSizeChars - overlap`. -/
theorem splitTextIntoChunks_spec (text : Str) (C O : Nat) (hO : O < C)
    (hlen : C ≤ text.length) (hws : trimEmpty text = false) :
    splitTextIntoChunks text C (some O)
      = some ((List.range (ceilDivNat text.length (C - O))).map
          (fun k => (text.drop (k * (C - O))).take C)) := by
  have hd : 0 < C - O := by omega
  have hnotbig : ¬ C > text.length := by omega
  have hnotclamp : ¬ O ≥ C := by omega
  have hfuel : text.length - 0 ≤ (text.length + 1) * (C - O) := by
    have := Nat.le_mul_of_pos_right (text.length + 1) hd
    omega
  simp only [splitTextIntoChunks, Option.getD_some, hws, Bool.false_eq_true,
    if_false, hnotbig, hnotclamp, chunkLoop_spec text C (C - O) hd
      (text.length + 1) 0 hfuel]
  congr 1
  apply List.map_congr_left
  intro k _
  simp

/-- Inside the emitted range, the slice taken by the loop agrees with the
spec-style window `[k·d, min (k·d + C) L)`. -/
theorem windowAt_eq_take (text : Str) (C d k : Nat)
    (hk : k * d < text.length) :
    windowAt text d C k = (text.drop (k * d)).take C := by
  unfold windowAt
  rw [List.take_eq_take]
  simp only [List.length_drop]
  omega

/-- `splitTextIntoChunks` produces exactly the spec windows. -/
theorem splitTextIntoChunks_eq_specWindows (text : Str) (C O : Nat)
    (hO : O < C) (hlen : C ≤ text.length) (hws : trimEmpty text = false) :
    splitTextIntoChunks text C (some O)
      = some (specWindows text C (C - O)) := by
  have hd : 0 < C - O := by omega
  rw [splitTextIntoChunks_spec text C O hO hlen hws]
  unfold specWindows
  congr 1
  apply List.map_congr_left
  intro k hk
  rw [windowAt_eq_take text C (C - O) k
    (lt_text_of_lt_ceilDivNat hd (List.mem_range.mp hk))]

/-- De-overlapped concatenation of the windows starting at `i`
reconstructs the suffix of the text from `i`. -/
theorem deOverlap_windows (text : Str) (C O : Nat) (hO : O < C) :
    ∀ (n i : Nat), text.length - i ≤ n → i < text.length →
      deOverlapConcat O ((List.range (ceilDivNat (text.length - i) (C - O))).map
          (fun k => (text.drop (i + k * (C - O))).take C))
        = text.drop i := by
  have hd : 0 < C - O := by omega
  intro n
  induction n with
  | zero => intro i h hi; omega
  | succ n ih =>
    intro i h hi
    rw [specFrom_cons text C (C - O) hd i hi]
    by_cases hlast : text.length ≤ i + (C - O)
    · have h0 : text.length - (i + (C - O)) = 0 := by omega
      rw [h0, ceilDivNat_zero]
      simp only [List.range_zero, List.map_nil, deOverlapConcat,
        List.flatten_nil, List.append_nil]
      apply List.take_of_length_le
      simp only [List.length_drop]
      omega
    · have hi2 : i + (C - O) < text.length := by omega
      rw [specFrom_cons text C (C - O) hd (i + (C - O)) hi2]
      have hIH := ih (i + (C - O)) (by omega) hi2
      rw [specFrom_cons text C (C - O) hd (i + (C - O)) hi2] at hIH
      simp only [deOverlapConcat, List.map_cons, List.flatten_cons] at hIH ⊢
      have hF := congrArg
        (List.drop ((text.drop (i + (C - O))).take C).length) hIH
      rw [List.drop_left] at hF
      have hm : ((text.drop (i + (C - O))).take C).length
          = min C (text.length - (i + (C - O))) := by
        simp
      have hB : ((text.drop (i + (C - O))).take C).drop O
          = (text.drop (i + C)).take (C - O) := by
        rw [List.drop_take, List.drop_drop]
        have : i + (C - O) + O = i + C := by omega
        rw [this]
      rw [hB, hF, hm, List.drop_drop, ← List.append_assoc]
      have hTA : (text.drop i).take C
            ++ (text.drop (i + C)).take (C - O)
          = (text.drop i).take (C + (C - O)) := by
        rw [List.take_add, List.drop_drop]
      rw [hTA]
      have hsw : (text.drop i).take (C + (C - O))
          = (text.drop i).take ((C - O) + min C (text.length - (i + (C - O)))) := by
        rw [List.take_eq_take]
        simp only [List.length_drop]
        omega
      rw [hsw]
      have hidx : i + (C - O) + min C (text.length - (i + (C - O)))
          = i + ((C - O) + min C (text.length - (i + (C - O)))) := by omega
      rw [hidx, ← List.drop_drop, List.take_append_drop]

/- ## Compiler lemmas -/

/-- At chunk size 2048 and default overlap 128 the slicing loop always
terminates, so the split used by the compiler always yields a chunk list. -/
theorem split2048_eq (text : Str) :
    splitTextIntoChunks text DEFAULT_PRELIMINARY_ANALYSIS_CHUNK_SIZE none
      = some (chunksOf text) := by
  unfold chunksOf
  cases h : splitTextIntoChunks text DEFAULT_PRELIMINARY_ANALYSIS_CHUNK_SIZE none with
  | some l => rfl
  | none =>
    exfalso
    revert h
    simp only [splitTextIntoChunks, DEFAULT_PRELIMINARY_ANALYSIS_CHUNK_SIZE,
      DEFAULT_CHUNK_OVERLAP_CHARS, Option.getD_none]
    split_ifs with h1 h2 h3
    · simp
    · simp
    · omega
    · have hfuel : text.length - 0 ≤ (text.length + 1) * (2048 - 128) := by
        have := Nat.le_mul_of_pos_right (text.length + 1)
          (show 0 < 2048 - 128 by omega)
        omega
      rw [chunkLoop_spec text 2048 (2048 - 128) (by omega)
        (text.length + 1) 0 hfuel]
      simp

/-- Skipping phase of the chunk loop: with `lastIndex ≤ startingIndex`
the loop first drops the chunks below the starting index. -/
theorem compileLoop_skip (oracle : Oracle) :
    ∀ (cs : List Str) (li s : Nat) (r : Str), li ≤ s →
      compileLoop oracle cs li s r
        = compileLoop oracle (cs.drop (s - li)) s s r := by
  intro cs
  induction cs with
  | nil =>
    intro li s r h
    simp only [List.drop_nil]
    rfl
  | cons c rest ih =>
    intro li s r h
    rcases Nat.lt_or_ge li s with hlt | hge
    · have hstep : compileLoop oracle (c :: rest) li s r
          = compileLoop oracle rest (li + 1) s r := by
        simp only [compileLoop]
        rw [if_pos hlt]
      rw [hstep, ih (li + 1) s r hlt]
      have hsub : s - li = (s - (li + 1)) + 1 := by omega
      rw [hsub, List.drop_succ_cons]
    · have hls : li = s := by omega
      subst hls
      simp [Nat.sub_self]

/-- Whenever the chunk loop throws, the failing index lies between the
starting index and the end of the chunk list. -/
theorem compileLoop_error_bound (oracle : Oracle) :
    ∀ (cs : List Str) (li s : Nat) (r r' : Str) (m : Nat),
      compileLoop oracle cs li s r = .error (r', m) →
      s ≤ m ∧ li ≤ m ∧ m < li + cs.length := by
  intro cs
  induction cs with
  | nil =>
    intro li s r r' m h
    exact absurd h (by simp [compileLoop])
  | cons c rest ih =>
    intro li s r r' m h
    simp only [compileLoop] at h
    by_cases hlt : li < s
    · rw [if_pos hlt] at h
      have := ih (li + 1) s r r' m h
      simp only [List.length_cons]
      omega
    · rw [if_neg hlt] at h
      cases horacle : oracle li c r with
      | none =>
        rw [horacle] at h
        have h1 : r = r' ∧ li = m := by
          injection h with h2
          injection h2 with h3 h4
          exact ⟨h3, h4⟩
        simp only [List.length_cons]
        omega
      | some resp =>
        rw [horacle] at h
        have := ih (li + 1) s resp r' m h
        simp only [List.length_cons]
        omega

/-- Processing phase of the chunk loop under `mkOracle`: either no index
from `j` on fails and the loop completes with the full fold, or the loop
throws at the first failing index, carrying the fold of the chunks
before it. -/
theorem compileLoop_cases (respond : Str → Str → Str) (failsAt : Nat → Bool)
    (s : Nat) :
    ∀ (cs : List Str) (j : Nat) (r : Str), s ≤ j →
      ((∀ t, t < cs.length → failsAt (j + t) = false) ∧
        compileLoop (mkOracle respond failsAt) cs j s r
          = .ok (processAllI respond failsAt j cs r))
      ∨ (∃ t, t < cs.length ∧ (∀ u, u < t → failsAt (j + u) = false) ∧
          failsAt (j + t) = true ∧
          compileLoop (mkOracle respond failsAt) cs j s r
            = .error (processAllI respond failsAt j (cs.take t) r, j + t)) := by
  intro cs
  induction cs with
  | nil =>
    intro j r hj
    left
    refine ⟨fun t ht => absurd ht (by simp), ?_⟩
    simp [compileLoop, processAllI]
  | cons c rest ih =>
    intro j r hj
    have hns : ¬ j < s := by omega
    cases hF : failsAt j with
    | true =>
      right
      refine ⟨0, by simp, fun u hu => absurd hu (by omega), by simpa using hF, ?_⟩
      simp only [compileLoop, if_neg hns, mkOracle, hF, if_true,
        List.take_zero, processAllI]
      simp
    | false =>
      have hloop : compileLoop (mkOracle respond failsAt) (c :: rest) j s r
          = compileLoop (mkOracle respond failsAt) rest (j + 1) s (respond c r) := by
        simp only [compileLoop, if_neg hns, mkOracle, hF]
        simp
      rcases ih (j + 1) (respond c r) (by omega) with ⟨h1, h2⟩ | ⟨t, ht, hu, hft, herr⟩
      · left
        constructor
        · intro t ht
          cases t with
          | zero => simpa using hF
          | succ t =>
            have harg : j + (t + 1) = (j + 1) + t := by omega
            rw [harg]
            exact h1 t (by simpa using ht)
        · rw [hloop, h2]
          simp [processAllI, hF]
      · right
        refine ⟨t + 1, by simpa using ht, ?_, ?_, ?_⟩
        · intro u hvu
          cases u with
          | zero => simpa using hF
          | succ u =>
            have harg : j + (u + 1) = (j + 1) + u := by omega
            rw [harg]
            exact hu u (by omega)
        · have harg : j + (t + 1) = (j + 1) + t := by omega
          rw [harg]
          exact hft
        · rw [hloop, herr]
          have harg : j + (t + 1) = (j + 1) + t := by omega
          rw [harg, List.take_succ_cons]
          simp [processAllI, hF]

/-- Folding through a failing index `j + t` leaves the accumulator
unchanged there: processing a chunk list equals processing the part
before the failing index, skipping it, and processing the rest. -/
theorem processAllI_split (respond : Str → Str → Str) (failsAt : Nat → Bool) :
    ∀ (t : Nat) (cs : List Str) (j : Nat) (r : Str), t < cs.length →
      failsAt (j + t) = true →
      processAllI respond failsAt j cs r
        = processAllI respond failsAt (j + t + 1) (cs.drop (t + 1))
            (processAllI respond failsAt j (cs.take t) r) := by
  intro t
  induction t with
  | zero =>
    intro cs j r ht hf
    cases cs with
    | nil => simp at ht
    | cons c rest =>
      have hFj : failsAt j = true := by simpa using hf
      simp [processAllI, List.drop_succ_cons, List.take_zero, hFj]
  | succ t ih =>
    intro cs j r ht hf
    cases cs with
    | nil => simp at ht
    | cons c rest =>
      have h2 : j + (t + 1) + 1 = (j + 1) + t + 1 := by omega
      have h3 : j + (t + 1) = (j + 1) + t := by omega
      simp only [List.take_succ_cons, List.drop_succ_cons, processAllI, h2]
      exact ih rest (j + 1) _ (by simpa using ht) (by rw [← h3]; exact hf)

/-- If individual responses never trip the reseeding guard, neither does
any fold of them. -/
theorem processAllI_seedTrigger (respond : Str → Str → Str)
    (failsAt : Nat → Bool)
    (hresp : ∀ c r, seedTrigger (respond c r) = false) :
    ∀ (cs : List Str) (j : Nat) (r : Str), seedTrigger r = false →
      seedTrigger (processAllI respond failsAt j cs r) = false := by
  intro cs
  induction cs with
  | nil => intro j r h; simpa [processAllI] using h
  | cons c rest ih =>
    intro j r h
    simp only [processAllI]
    apply ih
    by_cases hF : failsAt j = true
    · simp [hF, h]
    · simp only [Bool.not_eq_true] at hF
      simp [hF, hresp]

/-- The index-aware fold equals the plain fold over the surviving
chunks. -/
theorem processAllI_eq_foldl (respond : Str → Str → Str)
    (failsAt : Nat → Bool) :
    ∀ (cs : List Str) (j : Nat) (r : Str),
      processAllI respond failsAt j cs r
        = (survivorsFrom failsAt j cs).foldl (fun acc c => respond c acc) r := by
  intro cs
  induction cs with
  | nil => intro j r; rfl
  | cons c rest ih =>
    intro j r
    simp only [processAllI, survivorsFrom]
    by_cases hF : failsAt j = true
    · simp [hF, ih]
    · simp only [Bool.not_eq_true] at hF
      simp [hF, ih, List.foldl_cons]

/-- Main resume lemma: with deterministic responses and failures at the
indices in `failsAt`, a run started at `startingIndex = s` (with enough
fuel and a report that does not trip the reseeding guard) folds the
responses over exactly the non-failing chunks with index `≥ s`.  The
recursion in the catch block resumes at `lastIndex + 1`, so the failing
chunk itself is skipped. -/
theorem compileRec_spec (respond : Str → Str → Str) (failsAt : Nat → Bool)
    (hresp : ∀ c r, seedTrigger (respond c r) = false)
    (directory doc : Str) :
    ∀ (fuel s : Nat) (r : Str), numChunks doc - s < fuel →
      seedTrigger r = false →
      compileReportFromPreliminaryAnalysis (mkOracle respond failsAt)
          directory doc r s fuel
        = some (processAllI respond failsAt s ((chunksOf doc).drop s) r) := by
  intro fuel
  induction fuel with
  | zero => intro s r h hs; omega
  | succ fuel ih =>
    intro s r h hs
    simp only [compileReportFromPreliminaryAnalysis, split2048_eq doc, hs,
      Bool.false_eq_true, if_false]
    rw [compileLoop_skip (mkOracle respond failsAt) (chunksOf doc) 0 s r
      (Nat.zero_le s)]
    simp only [Nat.sub_zero]
    rcases compileLoop_cases respond failsAt s ((chunksOf doc).drop s) s r
        (Nat.le_refl s) with ⟨_, h2⟩ | ⟨t, ht, _, hft, herr⟩
    · rw [h2]
    · rw [herr]
      dsimp only
      have htn : t < (chunksOf doc).length - s := by
        simpa using ht
      have hlt : s + t < (chunksOf doc).length := by omega
      rw [if_pos hlt]
      have hseed2 : seedTrigger
          (processAllI respond failsAt s (((chunksOf doc).drop s).take t) r)
            = false :=
        processAllI_seedTrigger respond failsAt hresp _ s r hs
      have hfuel2 : numChunks doc - (s + t + 1) < fuel := by
        unfold numChunks at h ⊢
        omega
      rw [ih (s + t + 1) _ hfuel2 hseed2]
      rw [processAllI_split respond failsAt t ((chunksOf doc).drop s) s r
        (by simpa using htn) hft]
      rw [List.drop_drop]
      have hidx : s + (t + 1) = s + t + 1 := by omega
      rw [hidx]

/-- With any oracle, a run with fuel exceeding the remaining chunk count
completes: the resume recursion strictly advances the starting index,
which is bounded by the chunk count. -/
theorem compileRec_isSome (oracle : Oracle) (directory doc : Str) :
    ∀ (fuel s : Nat) (r : Str), numChunks doc - s < fuel →
      (compileReportFromPreliminaryAnalysis oracle directory doc
        r s fuel).isSome = true := by
  intro fuel
  induction fuel with
  | zero => intro s r h; omega
  | succ fuel ih =>
    intro s r h
    simp only [compileReportFromPreliminaryAnalysis, split2048_eq doc]
    cases hloop : compileLoop oracle (chunksOf doc) 0 s
        (if seedTrigger r then reportHeader directory else r) with
    | ok out => simp
    | error p =>
      obtain ⟨r', m⟩ := p
      have hb := compileLoop_error_bound oracle (chunksOf doc) 0 s _ r' m hloop
      have hm : m < (chunksOf doc).length := by omega
      dsimp only
      rw [if_pos hm]
      apply ih
      unfold numChunks at h ⊢
      omega

/- ## Claim theorems -/

/-- C1 counterexample: a one-chunk document.  When the summarization
call on chunk 0 fails, the catch block resumes at `lastIndex + 1 = 1`,
so chunk 0 is skipped and the run returns the untouched running report
(the empty string), while the uninterrupted run with deterministic
response R returns R.  Resumption therefore skips the failing chunk and
does not reproduce the uninterrupted report. -/
theorem C1_counterexample :
    compileReportFromPreliminaryAnalysis (fun _ _ _ => none)
        ['d'] ['a', 'b'] [] 0 2 = some []
      ∧ compileReportFromPreliminaryAnalysis (fun _ _ _ => some ['R'])
          ['d'] ['a', 'b'] [] 0 2 = some ['R']
      ∧ ([] : Str) ≠ ['R'] :=
  ⟨by decide, by decide, by decide⟩

/-- C1 (amended): resuming passes the running report exactly as it
stood before the failing chunk and reprocesses no chunk below the
failing index, but the recursion restarts at `lastIndex + 1`, skipping
the failing chunk itself: with deterministic responses the final report
is the fold of the response function over exactly the chunks whose
calls did not fail, in index order (assuming responses never trip the
reseeding guard, i.e. are never nonempty and whitespace-only). -/
theorem C1_resume_folds_nonfailing_chunks (respond : Str → Str → Str)
    (failsAt : Nat → Bool)
    (hresp : ∀ c r, seedTrigger (respond c r) = false)
    (directory doc : Str) :
    compileReportFromPreliminaryAnalysis (mkOracle respond failsAt)
        directory doc [] 0 (numChunks doc + 1)
      = some ((survivorsFrom failsAt 0 (chunksOf doc)).foldl
          (fun acc c => respond c acc) []) := by
  rw [compileRec_spec respond failsAt hresp directory doc
    (numChunks doc + 1) 0 [] (by omega) rfl]
  rw [List.drop_zero, processAllI_eq_foldl]

/-- C1 witness: the amended statement applied to the document "ab"
(one chunk) with a failure at index 0, evaluating to the empty report. -/
theorem C1_resume_folds_nonfailing_chunks_witness :
    compileReportFromPreliminaryAnalysis
        (mkOracle (fun _ _ => ['R']) (fun i => i == 0)) ['d'] ['a', 'b']
        [] 0 (numChunks ['a', 'b'] + 1)
      = some [] :=
  (C1_resume_folds_nonfailing_chunks (fun _ _ => ['R']) (fun i => i == 0)
    (by intro c r; show seedTrigger ['R'] = false; decide) ['d'] ['a', 'b']).trans (by decide)

/-- C2 counterexample: at text length 10, chunk size 4, overlap 2 the
loop emits 5 chunks, while the claimed count `⌈(L − O) / (C − O)⌉`
evaluates to 4. -/
theorem C2_counterexample :
    splitTextIntoChunks ['a','b','c','d','e','f','g','h','i','j'] 4 (some 2)
        = some [['a','b','c','d'], ['c','d','e','f'], ['e','f','g','h'],
                ['g','h','i','j'], ['i','j']]
      ∧ ceilDivNat (10 - 2) (4 - 2) = 4
      ∧ ([['a','b','c','d'], ['c','d','e','f'], ['e','f','g','h'],
          ['g','h','i','j'], ['i','j']] : List Str).length
          ≠ ceilDivNat (10 - 2) (4 - 2) :=
  ⟨by decide, by decide, by decide⟩

/-- C2 (amended): for `0 < C`, `0 ≤ O < C` and `L > C` (text not
whitespace-only), `splitTextIntoChunks` returns exactly
`⌈L / (C − O)⌉` chunks — not `⌈(L − O) / (C − O)⌉` — where chunk `k` is
the substring covering `[k·(C−O), min (k·(C−O)+C) L)`, windows emitted
in increasing `k` until the window start reaches or exceeds `L`; the
example `split("abcdefghij", 3, 1)` yields the five claimed chunks, and
empty or whitespace-only text yields the empty sequence. -/
theorem C2_split_window_shape :
    (∀ (text : Str) (C O : Nat), 0 < C → O < C → C < text.length →
        trimEmpty text = false →
        splitTextIntoChunks text C (some O)
            = some (specWindows text C (C - O))
          ∧ (specWindows text C (C - O)).length
            = ceilDivNat text.length (C - O))
      ∧ splitTextIntoChunks ['a','b','c','d','e','f','g','h','i','j'] 3 (some 1)
          = some [['a','b','c'], ['c','d','e'], ['e','f','g'],
                  ['g','h','i'], ['i','j']]
      ∧ (∀ (text : Str) (C : Nat) (O : Option Nat), trimEmpty text = true →
          splitTextIntoChunks text C O = some []) := by
  refine ⟨?_, by decide, ?_⟩
  · intro text C O hC hO hL hws
    refine ⟨splitTextIntoChunks_eq_specWindows text C O hO (by omega) hws, ?_⟩
    simp [specWindows]
  · intro text C O h
    simp [splitTextIntoChunks, h]

/-- C2 witness: the amended window statement evaluated at the
ten-character text with chunk size 4 and overlap 2. -/
theorem C2_split_window_shape_witness :
    splitTextIntoChunks ['a','b','c','d','e','f','g','h','i','j'] 4 (some 2)
        = some (specWindows ['a','b','c','d','e','f','g','h','i','j'] 4 (4 - 2))
      ∧ (specWindows ['a','b','c','d','e','f','g','h','i','j'] 4 (4 - 2)).length
        = ceilDivNat (['a','b','c','d','e','f','g','h','i','j'] : Str).length (4 - 2) :=
  C2_split_window_shape.1 ['a','b','c','d','e','f','g','h','i','j'] 4 2
    (by decide) (by decide) (by decide) (by decide)

/-- C3: code bug.  The guard `runningReport && runningReport.trim() === ""`
is false for the default empty running report, so the header is never
seeded: on an empty preliminary document (zero chunks) the compiler
returns the empty string verbatim, not the seeded header naming the
directory. -/
theorem C3_empty_document_returns_empty_not_header :
    (∀ (oracle : Oracle),
        compileReportFromPreliminaryAnalysis oracle ['d'] [] [] 0 1 = some [])
      ∧ reportHeader ['d'] ≠ [] :=
  ⟨fun _ => rfl, by decide⟩

/-- C4: code bug.  The clamp sets the overlap to
`Math.ceil(0.1 · chunkSize)`, but at `chunkSize = 1` this yields 1, the
advance `chunkSize − overlap` is 0, and the chunking loop never
terminates: the wrapper returns `none` (fuel exhausted) and the bare
loop returns `none` at every fuel, contradicting the claim that the
advance stays strictly positive on every input. -/
theorem C4_chunk_size_one_stalls :
    ceilTenth 1 = 1
      ∧ 1 - ceilTenth 1 = 0
      ∧ splitTextIntoChunks ['a', 'b'] 1 (some 1) = none
      ∧ (∀ fuel, chunkLoop ['a', 'b'] 1 0 0 fuel = none) :=
  ⟨rfl, rfl, by decide,
    fun fuel => chunkLoop_zero_advance ['a', 'b'] 1 fuel 0 (by decide)⟩

/-- C5 counterexample: at `chunkSize = length(text)` (with overlap 1)
the source takes the loop branch, not the single-chunk branch, and
emits two chunks. -/
theorem C5_counterexample :
    splitTextIntoChunks ['a', 'b', 'c'] 3 (some 1)
        = some [['a', 'b', 'c'], ['c']]
      ∧ ([['a', 'b', 'c'], ['c']] : List Str).length ≠ 1 :=
  ⟨by decide, by decide⟩

/-- C5 (amended): for every text that is not empty or whitespace-only
and every `chunkSize > length(text)` (strictly), `splitTextIntoChunks`
returns exactly one chunk, the whole text, regardless of the overlap
argument. -/
theorem C5_oversized_chunk_returns_whole_text (text : Str) (C : Nat)
    (O : Option Nat) (hws : trimEmpty text = false)
    (hC : text.length < C) :
    splitTextIntoChunks text C O = some [text] := by
  simp [splitTextIntoChunks, hws, hC]

/-- C5 witness: the amended statement at text "a", chunk size 2,
overlap 5. -/
theorem C5_oversized_chunk_returns_whole_text_witness :
    splitTextIntoChunks ['a'] 2 (some 5) = some [['a']] :=
  C5_oversized_chunk_returns_whole_text ['a'] 2 (some 5) (by decide) (by decide)

/-- C6 counterexample: a nonempty whitespace-only text yields no chunks,
so the de-overlapped concatenation is empty and does not reconstruct the
text. -/
theorem C6_counterexample :
    splitTextIntoChunks [' '] 1 (some 0) = some []
      ∧ deOverlapConcat 0 ([] : List Str) ≠ [' '] :=
  ⟨by decide, by decide⟩

/-- C6 (amended): for every text that is empty or not whitespace-only,
`chunkSize > 0` and `0 ≤ overlap < chunkSize`, concatenating the
returned chunks after dropping the first `overlap` characters of every
chunk except the first reconstructs the text exactly. -/
theorem C6_deoverlap_reconstructs (text : Str) (C O : Nat) (_hC : 0 < C)
    (hO : O < C) (htext : text = [] ∨ trimEmpty text = false) :
    ∃ l, splitTextIntoChunks text C (some O) = some l
      ∧ deOverlapConcat O l = text := by
  rcases htext with rfl | hws
  · exact ⟨[], rfl, rfl⟩
  · rcases Nat.lt_or_ge text.length C with hbig | hle
    · refine ⟨[text], ?_, ?_⟩
      · simp [splitTextIntoChunks, hws, hbig]
      · simp [deOverlapConcat]
    · have hL : 0 < text.length := by omega
      refine ⟨_, splitTextIntoChunks_spec text C O hO hle hws, ?_⟩
      have h := deOverlap_windows text C O hO text.length 0 (by omega) hL
      simpa using h

/-- C6 witness: the amended statement at text "ab", chunk size 2,
overlap 1. -/
theorem C6_deoverlap_reconstructs_witness :
    ∃ l, splitTextIntoChunks ['a', 'b'] 2 (some 1) = some l
      ∧ deOverlapConcat 1 l = ['a', 'b'] :=
  C6_deoverlap_reconstructs ['a', 'b'] 2 1 (by decide) (by decide)
    (Or.inr (by decide))

/-- C7: whenever the external call fails, the per-unit analyzer returns
the input file path unchanged together with a nonempty human-readable
failure placeholder — no error crosses the contract boundary. -/
theorem C7_analyzer_preserves_path_and_substitutes_placeholder
    (oracle : Str → Str → Option Str) (filePath content : Str)
    (hfail : oracle filePath content = none) :
    generateCodeFileAnalysis oracle filePath content
        = (filePath, analysisFailureMessage filePath)
      ∧ analysisFailureMessage filePath ≠ [] := by
  constructor
  · unfold generateCodeFileAnalysis
    rw [hfail]
  · simp [analysisFailureMessage]

/-- C7 witness: the analyzer on a failing oracle at path "x". -/
theorem C7_analyzer_witness :
    generateCodeFileAnalysis (fun _ _ => none) ['x'] []
        = (['x'], analysisFailureMessage ['x'])
      ∧ analysisFailureMessage ['x'] ≠ [] :=
  C7_analyzer_preserves_path_and_substitutes_placeholder
    (fun _ _ => none) ['x'] [] rfl

/-- C8: whenever the external call fails, `standardizeReport` returns
the apologetic placeholder as the standardized report together with its
timing record, instead of propagating the error. -/
theorem C8_standardize_never_propagates (oracle : Str → Option Str)
    (startTime endTime : Nat) (report : Str)
    (hfail : oracle report = none) :
    standardizeReport oracle startTime endTime report
        = (STANDARDIZE_APOLOGY, endTime - startTime)
      ∧ STANDARDIZE_APOLOGY ≠ [] := by
  constructor
  · unfold standardizeReport
    rw [hfail]
  · decide

/-- C8 witness: the standardizer on a failing oracle. -/
theorem C8_standardize_never_propagates_witness :
    standardizeReport (fun _ => none) 3 10 ['r']
        = (STANDARDIZE_APOLOGY, 10 - 3)
      ∧ STANDARDIZE_APOLOGY ≠ [] :=
  C8_standardize_never_propagates (fun _ => none) 3 10 ['r'] rfl

/-- C9: the file collector raises an error exactly when the root path
does not exist or is not a directory; on an existing directory it
returns a path sequence without raising. -/
theorem C9_collector_errors_iff_not_directory (folderPath : Str)
    (root : Option FSEntry) :
    exceptIsOk (getAllFilesInFolder folderPath root)
      = isExistingDirectory root := by
  cases root with
  | none => rfl
  | some e =>
    cases e with
    | file n => rfl
    | dir n entries => rfl

/-- C10: with fuel `numChunks + 1` the compiler always completes, for
every oracle — even one that fails on every call: each recursive
self-invocation strictly increases the starting index, which is bounded
by the chunk count, so the resume recursion depth is at most the chunk
count plus one. -/
theorem C10_compiler_terminates_with_bounded_resume (oracle : Oracle)
    (directory doc runningReport : Str) (startingIndex : Nat) :
    (compileReportFromPreliminaryAnalysis oracle directory doc
        runningReport startingIndex (numChunks doc + 1)).isSome = true :=
  compileRec_isSome oracle directory doc (numChunks doc + 1)
    startingIndex runningReport (by omega)
